import Mathlib

/-!
Shallow embedding of the two core text transformations of the `hw-command`
plugin (`src/main.ts`): the Reddit post extractor and the section-scoped
timestamp sorter.  JavaScript strings are modelled as Lean `String`s
(operating on their `List Char` data), JS `Date` values as normalized
civil date-time records (the ECMAScript `MakeDay`/`MakeTime` normalization
is modelled extensionally by carry/borrow normalization and Howard
Hinnant's civil-from-days algorithms), and the host runtime's local time
zone is taken to be UTC, which is the reading under which the source's
`getFullYear`/`getHours` formatting realizes the fixed "UTC − 4 h" display
arithmetic its comments describe.  JS `Array.prototype.sort` (stable since
ES2019) is modelled by a stable insertion sort; for a total transitive
comparator the stable-sorted permutation is unique, so this is
extensionally faithful.
-/

namespace HWCommand

/-- Character class of the JavaScript regular-expression `\s` (ECMAScript
WhiteSpace ∪ LineTerminator), as used by the timestamp and heading
regexes in `src/main.ts`. -/
def isJsWs (c : Char) : Bool :=
  let n := c.toNat
  n = 0x20 || n = 0x09 || n = 0x0a || n = 0x0d || n = 0x0b || n = 0x0c ||
  n = 0xa0 || n = 0x1680 || (0x2000 ≤ n && n ≤ 0x200a) ||
  n = 0x2028 || n = 0x2029 || n = 0x202f || n = 0x205f || n = 0x3000 || n = 0xfeff

/-- Numeric value of a decimal digit character (used to model JS `parseInt`
on all-digit strings). -/
def digitVal (c : Char) : Nat := c.toNat - 48

/-- Value of an all-digit character run read in base 10, modelling
`parseInt` applied to a digit substring. -/
def digitsVal (ds : List Char) : Nat := ds.foldl (fun a c => 10 * a + digitVal c) 0

/-- Decimal digit character for a value `0 ≤ n ≤ 9`. -/
def decDigitChar (n : Nat) : Char := Char.ofNat (48 + n)

/-- Fuelled decimal rendering: with fuel above the value the result is the
standard base-10 digit string (most significant first).  Structural fuel
recursion keeps the definition kernel-computable; `n + 1` fuel always
suffices since the value shrinks at every step. -/
def decReprFuel : Nat → Nat → List Char
  | 0, _ => []
  | fuel + 1, n =>
    if n < 10 then [decDigitChar n]
    else decReprFuel fuel (n / 10) ++ [decDigitChar (n % 10)]

/-- Decimal rendering of a natural number, modelling the JS number-to-string
conversion performed by template literals for non-negative integral values. -/
def decRepr (n : Nat) : List Char := decReprFuel (n + 1) n

/-- Decimal rendering of a JS integral number, including the sign, modelling
`${n}` for integral `n`. -/
def intRepr (i : Int) : List Char :=
  if i < 0 then '-' :: decRepr (-i).toNat else decRepr i.toNat

/-- Left-pad a character list with `'0'` to length ≥ 2, modelling
`String.prototype.padStart(2, '0')`. -/
def padStart2 (s : List Char) : List Char := List.replicate (2 - s.length) '0' ++ s

/-- The `pad` helper of `RedditPostParserCommand.extractRedditPosts`
(`src/main.ts:104`): `n.toString().padStart(2, '0')`. -/
def pad2 (n : Nat) : List Char := padStart2 (decRepr n)

/-- Model of `String.prototype.trim`: strip JS whitespace from both ends. -/
def jsTrim (s : String) : String :=
  String.mk (((s.data.dropWhile isJsWs).reverse.dropWhile isJsWs).reverse)

/-! ### Calendar arithmetic (model of ECMAScript `Date`) -/

/-- Proleptic-Gregorian leap-year test (as used by ECMAScript `Date`). -/
def isLeapYear (y : Int) : Bool :=
  (y % 4 == 0 && y % 100 != 0) || y % 400 == 0

/-- Number of days of month `m` (1-based) of year `y`. -/
def daysInMonth (y : Int) (m : Nat) : Nat :=
  if m = 1 then 31
  else if m = 2 then (if isLeapYear y then 29 else 28)
  else if m = 3 then 31
  else if m = 4 then 30
  else if m = 5 then 31
  else if m = 6 then 30
  else if m = 7 then 31
  else if m = 8 then 31
  else if m = 9 then 30
  else if m = 10 then 31
  else if m = 11 then 30
  else 31

/-- Days since the Unix epoch of the civil date `y-m-d` (month 1-based);
Howard Hinnant's `days_from_civil`, the arithmetic ECMAScript `MakeDay`
computes. -/
def daysFromCivil (y : Int) (m : Nat) (d : Int) : Int :=
  let y2 : Int := if m ≤ 2 then y - 1 else y
  let era : Int := y2.fdiv 400
  let yoe : Int := y2 - era * 400
  let mp : Int := if 2 < m then (m : Int) - 3 else (m : Int) + 9
  let doy : Int := (153 * mp + 2) / 5 + d - 1
  let doe : Int := yoe * 365 + yoe / 4 - yoe / 100 + doy
  era * 146097 + doe - 719468

/-- Civil date `(y, m, d)` (month 1-based) of a count of days since the Unix
epoch; Howard Hinnant's `civil_from_days`, the arithmetic behind the
ECMAScript `YearFromTime`/`MonthFromTime`/`DateFromTime` getters. -/
def civilFromDays (z0 : Int) : Int × Nat × Nat :=
  let z : Int := z0 + 719468
  let era : Int := z.fdiv 146097
  let doe : Int := z - era * 146097
  let yoe : Int := (doe - doe / 1460 + doe / 36524 - doe / 146096) / 365
  let doy : Int := doe - (365 * yoe + yoe / 4 - yoe / 100)
  let mp : Int := (5 * doy + 2) / 153
  let d : Int := doy - (153 * mp + 2) / 5 + 1
  let m : Int := if mp < 10 then mp + 3 else mp - 9
  ((yoe + era * 400) + (if m ≤ 2 then 1 else 0), m.toNat, d.toNat)

/-- A JS `Date` value, represented by its normalized civil fields in the
runtime's local time zone (modelled as UTC).  `month` is 1-based here;
`getMonth()` corresponds to `month - 1`. -/
structure JSDate where
  year : Int
  month : Nat
  day : Nat
  hour : Nat
  minute : Nat
deriving DecidableEq, Repr

/-- Epoch milliseconds of a `JSDate` (`Date.prototype.getTime`). -/
def JSDate.getTime (d : JSDate) : Int :=
  daysFromCivil d.year d.month d.day * 86400000 +
    (d.hour : Int) * 3600000 + (d.minute : Int) * 60000

/-- Carry/borrow normalization of a (possibly out-of-range) day-of-month into
a civil date; extensionally the composite `civil_from_days ∘ days_from_civil`
normalization ECMAScript `MakeDay` performs.  The fuel bound is far above
what the bounded fields produced by the parsers can require. -/
def normalizeDays : Nat → Int → Nat → Nat → Int × Nat × Nat
  | 0, y, m, dd => (y, m, dd)
  | fuel + 1, y, m, dd =>
    if dd = 0 then
      (if m = 1 then normalizeDays fuel (y - 1) 12 31
       else normalizeDays fuel y (m - 1) (daysInMonth y (m - 1)))
    else if daysInMonth y m < dd then
      (if m = 12 then normalizeDays fuel (y + 1) 1 (dd - daysInMonth y 12)
       else normalizeDays fuel y (m + 1) (dd - daysInMonth y m))
    else (y, m, dd)

/-- Model of the JS constructor `new Date(year, monthIndex, day, hours,
minutes)` (ECMAScript `MakeDay`/`MakeTime`): years 0–99 are offset by 1900,
the month index is normalized by floored division, and overflowing time and
day fields carry into the date.  All numeric arguments that the embedded
program passes are non-negative except the month index (which can be `-1`
for a parsed month field of `00`), so only the month argument is an `Int`. -/
def mkDateFields (y : Nat) (mo : Int) (d h mi : Nat) : JSDate :=
  let yAdj : Int := if y ≤ 99 then (y : Int) + 1900 else (y : Int)
  let ym : Int := yAdj + mo.fdiv 12
  let m0 : Nat := (mo % 12).toNat
  let minutesTotal : Nat := h * 60 + mi
  let norm := normalizeDays 1000 ym (m0 + 1) (d + minutesTotal / 1440)
  ⟨norm.1, norm.2.1, norm.2.2, minutesTotal % 1440 / 60, minutesTotal % 60⟩

/-- JS `Date` with the given epoch milliseconds (as produced by
`new Date(ms)` or by `Date` string parsing), in civil-field representation. -/
def msToJSDate (t : Int) : JSDate :=
  let days := t.fdiv 86400000
  let c := civilFromDays days
  let msOfDay : Nat := (t - days * 86400000).toNat
  ⟨c.1, c.2.1, c.2.2, msOfDay / 3600000, msOfDay % 3600000 / 60000⟩

/-! ### Timestamp codec (`TimestampParser`, `src/main.ts:183-227`) -/

/-- Shape scan shared by the strict timestamp regex
`/^-\s+(\d{8}|\d{12})\s+-\s+/` and the loose one `/^-\s+\d{8,12}\s+-\s+/`:
a leading `-`, a nonempty whitespace run, a maximal digit run, a nonempty
whitespace run, a `-`, and at least one further whitespace character.
Both regexes match exactly when this shape holds and the digit run's length
is in their respective set (the adjacent character classes are disjoint, so
the regex backtracking is deterministic); the function returns the digit
run. -/
def timestampDigits (line : String) : Option (List Char) :=
  match line.data with
  | '-' :: r0 =>
    let ws1 := r0.takeWhile isJsWs
    let r1 := r0.dropWhile isJsWs
    let ds := r1.takeWhile Char.isDigit
    let r2 := r1.dropWhile Char.isDigit
    let ws2 := r2.takeWhile isJsWs
    let r3 := r2.dropWhile isJsWs
    (match r3 with
     | '-' :: c :: _ =>
       if 1 ≤ ws1.length && 1 ≤ ws2.length && isJsWs c then some ds else none
     | _ => none)
  | _ => none

/-- `TimestampParser.parseTimestamp` (`src/main.ts:185-211`): strict parse of
a line prefix `- YYYYMMDD - ` or `- YYYYMMDDHHmm - ` (whitespace per `\s+`),
decoding via `parseInt` on the fixed-width fields and `new Date(...)` with a
0-based month. -/
def parseTimestamp (line : String) : Option JSDate :=
  match timestampDigits line with
  | none => none
  | some ds =>
    if ds.length = 8 then
      some (mkDateFields (digitsVal (ds.take 4))
        ((digitsVal ((ds.drop 4).take 2) : Int) - 1)
        (digitsVal ((ds.drop 6).take 2)) 0 0)
    else if ds.length = 12 then
      some (mkDateFields (digitsVal (ds.take 4))
        ((digitsVal ((ds.drop 4).take 2) : Int) - 1)
        (digitsVal ((ds.drop 6).take 2))
        (digitsVal ((ds.drop 8).take 2))
        (digitsVal ((ds.drop 10).take 2)))
    else none

/-- The loose timestamp-row test `line.match(/^-\s+\d{8,12}\s+-\s+/)` used at
`src/main.ts:418`. -/
def looseTimestampMatch (line : String) : Bool :=
  match timestampDigits line with
  | some ds => 8 ≤ ds.length && ds.length ≤ 12
  | none => false

/-- The scanning condition of `sortTimestampsInSection` (`src/main.ts:418`):
`timestamp !== null || line.match(/^-\s+\d{8,12}\s+-\s+/)`. -/
def isTimestampRow (line : String) : Bool :=
  (parseTimestamp line).isSome || looseTimestampMatch line

/-- The `TimestampedEntry` record of `src/main.ts:177-181`. -/
structure TimestampedEntry where
  line : String
  timestamp : Option JSDate
  originalIndex : Int
deriving DecidableEq, Repr

/-- The comparator passed to `entries.sort` in
`TimestampParser.sortTimestampedEntries` (`src/main.ts:215-225`).  A JS
`Date` object is always truthy, so `!a.timestamp` is exactly
`a.timestamp === null`. -/
def compareEntries (a b : TimestampedEntry) : Int :=
  match a.timestamp, b.timestamp with
  | none, none => a.originalIndex - b.originalIndex
  | none, some _ => -1
  | some _, none => 1
  | some ta, some tb => tb.getTime - ta.getTime

/-- The ordering induced by `compareEntries`: `a` need not come after `b`. -/
def entryLE (a b : TimestampedEntry) : Prop := compareEntries a b ≤ 0

instance entryLE.instDecidableRel : DecidableRel entryLE :=
  fun a b => inferInstanceAs (Decidable (compareEntries a b ≤ 0))

/-- `TimestampParser.sortTimestampedEntries` (`src/main.ts:214-226`):
`entries.sort(comparator)`.  `Array.prototype.sort` is stable (ES2019) and
the comparator is total and transitive, so its result is the unique stable
sorting; it is modelled by the stable `List.insertionSort`. -/
def sortTimestampedEntries (entries : List TimestampedEntry) : List TimestampedEntry :=
  List.insertionSort entryLE entries

/-! ### Section locator and sorter (`SortTimestampedListCommand`) -/

/-- `SortTimestampedListCommand.getHeadingLevel` (`src/main.ts:483-486`):
the match length of `/^(#{1,6})\s+/`, or 0.  The greedy `#{1,6}` is
deterministic here since a shorter hash run would be followed by `#`,
which is not whitespace. -/
def getHeadingLevel (line : String) : Nat :=
  let hs := line.data.takeWhile (fun c => c = '#')
  let rest := line.data.dropWhile (fun c => c = '#')
  if 1 ≤ hs.length ∧ hs.length ≤ 6 then
    (match rest with
     | c :: _ => if isJsWs c then hs.length else 0
     | [] => 0)
  else 0

/-- The boundary-scanning loop of `sortTimestampsInSection`
(`src/main.ts:401-407`): the first index whose heading level is positive
and ≤ the chosen heading's level ends the section just before it;
otherwise the default (last line index) stands. -/
def scanForBoundary (lines : List String) (lvl : Nat) : List Nat → Int → Int
  | [], dflt => dflt
  | i :: rest, dflt =>
    let hl := getHeadingLevel (lines.getD i "")
    if 0 < hl ∧ hl ≤ lvl then (i : Int) - 1
    else scanForBoundary lines lvl rest dflt

/-- The section-range computation of `sortTimestampsInSection`
(`src/main.ts:392-408`): the whole document for the sentinel `-1`,
otherwise from the line after the chosen heading to the line before the
next heading of the same or higher level (or the last line). -/
def sectionBounds (lines : List String) (sectionLine : Int) : Int × Int :=
  if sectionLine = -1 then (0, (lines.length : Int) - 1)
  else
    let s : Int := sectionLine + 1
    let lvl := getHeadingLevel (lines.getD sectionLine.toNat "")
    (s, scanForBoundary lines lvl
          (List.range' s.toNat (lines.length - s.toNat))
          ((lines.length : Int) - 1))

/-- The scanning loop of `sortTimestampsInSection` (`src/main.ts:414-429`):
partition the indexed lines into timestamp-row entries (with their parsed,
possibly null, timestamp and absolute index) and the remaining lines, both
in encounter order. -/
def scanEntries (lines : List String) : List Nat → List TimestampedEntry × List String
  | [] => ([], [])
  | i :: rest =>
    let line := lines.getD i ""
    let p := scanEntries lines rest
    if isTimestampRow line then (⟨line, parseTimestamp line, (i : Int)⟩ :: p.1, p.2)
    else (p.1, line :: p.2)

/-- `SortTimestampedListCommand.sortTimestampsInSection`
(`src/main.ts:384-481`) as a pure document transformation on the split
lines: `none` models the early return at `src/main.ts:431-434` (the
"No timestamped entries found" notice, with no `vault.modify` call);
`some newLines` models the rewritten document that is joined and written
back.  The in-place clear-then-fill of `newLines[startLine..endLine]` is
rendered as take/append/drop, the two guarded insertion loops as a `take`
of the concatenated content, and the final blank-fill loop as padding with
empty strings. -/
def sortTimestampsInSection (lines : List String) (sectionLine : Int) :
    Option (List String) :=
  let b := sectionBounds lines sectionLine
  let s := b.1
  let e := b.2
  let rangeLen : Nat := (e + 1 - s).toNat
  let idxs := List.range' s.toNat rangeLen
  let scanned := scanEntries lines idxs
  let timestampedEntries := scanned.1
  let nonTimestampedLines := scanned.2
  if timestampedEntries.isEmpty then none
  else
    let sortedEntries := sortTimestampedEntries timestampedEntries
    let content := sortedEntries.map TimestampedEntry.line ++
      nonTimestampedLines.filter (fun l => jsTrim l != "")
    let newRange := content.take rangeLen ++
      List.replicate (rangeLen - content.length) ""
    some (lines.take s.toNat ++ newRange ++ lines.drop (e + 1).toNat)

/-- Start index of the scanned range of `sortTimestampsInSection`
(`startLine` as a list index). -/
def sectionStart (lines : List String) (sl : Int) : Nat :=
  (sectionBounds lines sl).1.toNat

/-- Number of lines in the scanned range of `sortTimestampsInSection`
(`endLine - startLine + 1`, clamped at 0). -/
def sectionLen (lines : List String) (sl : Int) : Nat :=
  ((sectionBounds lines sl).2 + 1 - (sectionBounds lines sl).1).toNat

/-- The absolute indices scanned by `sortTimestampsInSection`
(`startLine .. endLine`). -/
def sectionIdxList (lines : List String) (sl : Int) : List Nat :=
  List.range' (sectionStart lines sl) (sectionLen lines sl)

/-- The sorted timestamp-row lines the rewrite places first. -/
def sectionSorted (lines : List String) (sl : Int) : List String :=
  (sortTimestampedEntries (scanEntries lines (sectionIdxList lines sl)).1).map
    TimestampedEntry.line

/-- The non-timestamped, non-blank lines the rewrite places after the
sorted entries. -/
def sectionKept (lines : List String) (sl : Int) : List String :=
  (scanEntries lines (sectionIdxList lines sl)).2.filter (fun l => jsTrim l != "")

/-! ### Reddit post extractor (`RedditPostParserCommand`, `src/main.ts:73-113`) -/

/-- An HTML `shreddit-post` candidate element, abstracted to the three
attributes the extractor reads (`post-title`, `permalink`,
`created-timestamp`); `none` models an absent attribute. -/
structure PostElement where
  postTitle : Option String
  permalink : Option String
  createdTimestamp : Option String
deriving DecidableEq, Repr

/-- JS falsiness of an optional attribute string: absent or empty. -/
def attrMissing : Option String → Bool
  | none => true
  | some s => s == ""

/-- Match of the regex `/(\/r\/[^/]+\/comments\/[^/]+\/)/` anchored at the
head of `cs`: literal `/r/`, a nonempty slash-free segment, literal
`/comments/`, a nonempty slash-free segment, and a final `/`.  The greedy
`[^/]+` runs are deterministic because the following literal is `/`. -/
def matchCommentsPathAt (cs : List Char) : Option (List Char) :=
  match cs with
  | '/' :: 'r' :: '/' :: r1 =>
    let seg1 := r1.takeWhile (fun c => c ≠ '/')
    let r2 := r1.dropWhile (fun c => c ≠ '/')
    if seg1.isEmpty then none
    else
      (match r2 with
       | '/' :: 'c' :: 'o' :: 'm' :: 'm' :: 'e' :: 'n' :: 't' :: 's' :: '/' :: r3 =>
         let seg2 := r3.takeWhile (fun c => c ≠ '/')
         let r4 := r3.dropWhile (fun c => c ≠ '/')
         if seg2.isEmpty then none
         else
           (match r4 with
            | '/' :: _ =>
              some ('/' :: 'r' :: '/' :: seg1 ++
                '/' :: 'c' :: 'o' :: 'm' :: 'm' :: 'e' :: 'n' :: 't' :: 's' :: '/' ::
                seg2 ++ ['/'])
            | _ => none)
       | _ => none)
  | _ => none

/-- Leftmost-first search of `slug.match(/(\/r\/[^/]+\/comments\/[^/]+\/)/)`
(`src/main.ts:89`): the regex engine tries each start position from the
left and returns the first full match. -/
def findRedditPath : List Char → Option (List Char)
  | [] => none
  | c :: rest =>
    match matchCommentsPathAt (c :: rest) with
    | some p => some p
    | none => findRedditPath rest

/-- Model of `new Date(isoString)` for the UTC-designated second-precision
ISO-8601 strings Reddit's `created-timestamp` attribute carries
(`YYYY-MM-DDTHH:MM:SSZ`): epoch milliseconds of the denoted UTC instant,
or `none` for a string outside this shape or with out-of-range fields
(ECMAScript rejects out-of-range ISO fields as an invalid date). -/
def isoParseUTC (s : String) : Option Int :=
  match s.data with
  | [y1, y2, y3, y4, '-', m1, m2, '-', d1, d2, 'T',
     h1, h2, ':', n1, n2, ':', s1, s2, 'Z'] =>
    if ([y1, y2, y3, y4, m1, m2, d1, d2, h1, h2, n1, n2, s1, s2].all Char.isDigit) then
      let y := digitsVal [y1, y2, y3, y4]
      let mo := digitsVal [m1, m2]
      let d := digitsVal [d1, d2]
      let h := digitsVal [h1, h2]
      let mi := digitsVal [n1, n2]
      let ss := digitsVal [s1, s2]
      if 1 ≤ mo ∧ mo ≤ 12 ∧ 1 ≤ d ∧ d ≤ daysInMonth y mo ∧ h ≤ 23 ∧ mi ≤ 59 ∧ ss ≤ 59 then
        some (daysFromCivil y mo d * 86400000 +
          (h : Int) * 3600000 + (mi : Int) * 60000 + (ss : Int) * 1000)
      else none
    else none
  | _ => none

/-- The time formatting of `extractRedditPosts` (`src/main.ts:104-107`):
`getFullYear()` unpadded, then `getMonth()+1`, `getDate()`, `getHours()`,
`getMinutes()` each two-padded (`getMonth()+1` is `month` in this 1-based
representation). -/
def formatYYYYMMDDHHmm (d : JSDate) : String :=
  String.mk (intRepr d.year ++ pad2 d.month ++ pad2 d.day ++ pad2 d.hour ++ pad2 d.minute)

/-- The per-element body of the `posts.each` loop in
`RedditPostParserCommand.extractRedditPosts` (`src/main.ts:78-110`):
`none` models the early `return` that skips the candidate.  An unparseable
`created-timestamp` is NOT skipped: the JS code formats the invalid date,
whose `NaN`-valued getters print as `NaN` (unchanged by `padStart(2)`),
and still pushes the line. -/
def processPost (p : PostElement) : Option String :=
  if attrMissing p.postTitle || attrMissing p.permalink || attrMissing p.createdTimestamp then
    none
  else
    let title := p.postTitle.getD ""
    let slug := p.permalink.getD ""
    let tsStr := p.createdTimestamp.getD ""
    match findRedditPath slug.data with
    | none => none
    | some path =>
      let postUrl := "https://www.reddit.com" ++ String.mk path
      let formattedTime : String :=
        match isoParseUTC tsStr with
        | some t => formatYYYYMMDDHHmm (msToJSDate (t - 14400000))
        | none => "NaNNaNNaNNaNNaN"
      some ("- " ++ formattedTime ++ " - [" ++ title ++ "](" ++ postUrl ++ ")")

/-- `RedditPostParserCommand.extractRedditPosts` (`src/main.ts:73-113`)
over the abstracted candidate elements, in document order. -/
def extractRedditPosts (posts : List PostElement) : List String :=
  posts.filterMap processPost

/-! ### Definitions transcribed from the claims' own wording (for
comparison with the source-derived definitions above) -/

/-- Strict timestamp grammar as the specification words it: the line starts
with `- ` (one space), then exactly 8 or exactly 12 decimal digits, then
` - ` (single spaces). -/
def specStrictGrammar (line : String) : Bool :=
  match line.data with
  | '-' :: ' ' :: rest =>
    let ds := rest.takeWhile Char.isDigit
    let r2 := rest.dropWhile Char.isDigit
    (ds.length == 8 || ds.length == 12) && (r2.take 3 == [' ', '-', ' '])
  | _ => false

/-- Loose timestamp pattern as the specification words it: `- `, a run of
8 to 12 decimal digits, ` - `. -/
def specLooseGrammar (line : String) : Bool :=
  match line.data with
  | '-' :: ' ' :: rest =>
    let ds := rest.takeWhile Char.isDigit
    let r2 := rest.dropWhile Char.isDigit
    (8 ≤ ds.length && ds.length ≤ 12) && (r2.take 3 == [' ', '-', ' '])
  | _ => false

/-- Heading level as the claim for the section locator words it: 1–6 `#`
markers followed by required whitespace and then non-empty text. -/
def specHeadingLevel (line : String) : Nat :=
  let hs := line.data.takeWhile (fun c => c = '#')
  let rest := line.data.dropWhile (fun c => c = '#')
  if 1 ≤ hs.length ∧ hs.length ≤ 6 then
    (match rest with
     | c :: cs => if isJsWs c ∧ cs ≠ [] then hs.length else 0
     | [] => 0)
  else 0

/-- Boundary scan using the claim's heading grammar (`specHeadingLevel`). -/
def specScanForBoundary (lines : List String) (lvl : Nat) : List Nat → Int → Int
  | [], dflt => dflt
  | i :: rest, dflt =>
    let hl := specHeadingLevel (lines.getD i "")
    if 0 < hl ∧ hl ≤ lvl then (i : Int) - 1
    else specScanForBoundary lines lvl rest dflt

/-- Section end line as the claim words it, for a chosen heading at line `h`
of level `lvl`. -/
def specSectionEnd (lines : List String) (h : Nat) (lvl : Nat) : Int :=
  specScanForBoundary lines lvl
    (List.range' (h + 1) (lines.length - (h + 1)))
    ((lines.length : Int) - 1)

/-! ### Helper lemmas -/

theorem isDigit_toNat_bounds {c : Char} (h : c.isDigit = true) :
    48 ≤ c.toNat ∧ c.toNat ≤ 57 := by
  simp [Char.isDigit] at h
  exact ⟨h.1, h.2⟩

theorem isDigit_not_isJsWs {c : Char} (h : c.isDigit = true) : isJsWs c = false := by
  have hb := isDigit_toNat_bounds h
  simp only [isJsWs]
  simp only [Bool.or_eq_false_iff, Bool.and_eq_false_iff, decide_eq_false_iff_not]
  omega

theorem dash_not_isJsWs : isJsWs '-' = false := by decide

theorem takeWhile_append_all {p : Char → Bool} :
    ∀ (xs ys : List Char), (∀ x ∈ xs, p x = true) →
      (∀ c, ys.head? = some c → p c = false) →
      (xs ++ ys).takeWhile p = xs ∧ (xs ++ ys).dropWhile p = ys
  | [], ys, _, hys => by
    cases ys with
    | nil => exact ⟨rfl, rfl⟩
    | cons c t =>
      have hc := hys c rfl
      simp [List.takeWhile_cons, List.dropWhile_cons, hc]
  | x :: xs, ys, hxs, hys => by
    have hx : p x = true := hxs x (by simp)
    have ih := takeWhile_append_all xs ys (fun a ha => hxs a (by simp [ha])) hys
    simp [List.takeWhile_cons, List.dropWhile_cons, hx, ih.1, ih.2]

theorem compareEntries_none_none {a b : TimestampedEntry}
    (ha : a.timestamp = none) (hb : b.timestamp = none) :
    compareEntries a b = a.originalIndex - b.originalIndex := by
  simp [compareEntries, ha, hb]

theorem compareEntries_some_some {a b : TimestampedEntry} {ta tb : JSDate}
    (ha : a.timestamp = some ta) (hb : b.timestamp = some tb) :
    compareEntries a b = tb.getTime - ta.getTime := by
  simp [compareEntries, ha, hb]

theorem entryLE_total (a b : TimestampedEntry) : entryLE a b ∨ entryLE b a := by
  simp only [entryLE, compareEntries]
  rcases a.timestamp with _ | ta <;> rcases b.timestamp with _ | tb <;> simp <;> omega

theorem entryLE_trans (a b c : TimestampedEntry) :
    entryLE a b → entryLE b c → entryLE a c := by
  simp only [entryLE, compareEntries]
  rcases a.timestamp with _ | ta <;> rcases b.timestamp with _ | tb <;>
    rcases c.timestamp with _ | tc <;> simp <;> omega

theorem sorted_sortTimestampedEntries (l : List TimestampedEntry) :
    (sortTimestampedEntries l).Pairwise entryLE := by
  haveI : IsTotal TimestampedEntry entryLE := ⟨entryLE_total⟩
  haveI : IsTrans TimestampedEntry entryLE := ⟨entryLE_trans⟩
  exact List.sorted_insertionSort entryLE l

theorem perm_sortTimestampedEntries (l : List TimestampedEntry) :
    (sortTimestampedEntries l).Perm l :=
  List.perm_insertionSort entryLE l

theorem scanEntries_fst_nil {lines : List String} :
    ∀ idxs : List Nat, (∀ i ∈ idxs, isTimestampRow (lines.getD i "") = false) →
      (scanEntries lines idxs).1 = []
  | [], _ => rfl
  | i :: rest, h => by
    have hi := h i (by simp)
    have ih := scanEntries_fst_nil rest (fun j hj => h j (by simp [hj]))
    simp only [List.getD_eq_getElem?_getD] at hi
    simp [scanEntries, List.getD_eq_getElem?_getD, hi, ih]

theorem scanForBoundary_cases {lines : List String} {lvl : Nat} :
    ∀ (idxs : List Nat) (dflt : Int),
      scanForBoundary lines lvl idxs dflt = dflt ∨
      ∃ i ∈ idxs, scanForBoundary lines lvl idxs dflt = (i : Int) - 1
  | [], _ => Or.inl rfl
  | i :: rest, dflt => by
    by_cases h : 0 < getHeadingLevel (lines.getD i "") ∧
        getHeadingLevel (lines.getD i "") ≤ lvl
    · refine Or.inr ⟨i, by simp, ?_⟩
      simp only [scanForBoundary]
      rw [if_pos h]
    · rcases @scanForBoundary_cases lines lvl rest dflt with h2 | ⟨j, hj, h2⟩
      · refine Or.inl ?_
        simp only [scanForBoundary]
        rw [if_neg h, h2]
      · refine Or.inr ⟨j, by simp [hj], ?_⟩
        simp only [scanForBoundary]
        rw [if_neg h, h2]

theorem sectionBounds_fst_nonneg (lines : List String) (sl : Int)
    (h : sl = -1 ∨ 0 ≤ sl) : 0 ≤ (sectionBounds lines sl).1 := by
  rcases h with h | h
  · simp [sectionBounds, h]
  · by_cases h1 : sl = -1
    · omega
    · simp only [sectionBounds, if_neg h1]
      omega

theorem sectionBounds_snd_le (lines : List String) (sl : Int) :
    (sectionBounds lines sl).2 ≤ (lines.length : Int) - 1 := by
  by_cases h1 : sl = -1
  · simp [sectionBounds, h1]
  · simp only [sectionBounds, if_neg h1]
    rcases scanForBoundary_cases
        (List.range' (sl + 1).toNat (lines.length - (sl + 1).toNat))
        ((lines.length : Int) - 1) with h | ⟨i, hi, h⟩
    · rw [h]
    · rw [h]
      rw [List.mem_range'_1] at hi
      omega

theorem sectionScan_no_rows (lines : List String) (sl : Int) (hsl : sl = -1 ∨ 0 ≤ sl)
    (hrow : ∀ i : Nat, i < lines.length →
      (sectionBounds lines sl).1 ≤ (i : Int) → (i : Int) ≤ (sectionBounds lines sl).2 →
      isTimestampRow (lines.getD i "") = false) :
    (scanEntries lines
      (List.range' (sectionBounds lines sl).1.toNat
        ((sectionBounds lines sl).2 + 1 - (sectionBounds lines sl).1).toNat)).1 = [] := by
  apply scanEntries_fst_nil
  intro i hi
  rw [List.mem_range'_1] at hi
  have hs0 : 0 ≤ (sectionBounds lines sl).1 := sectionBounds_fst_nonneg lines sl hsl
  have hle : (sectionBounds lines sl).2 ≤ (lines.length : Int) - 1 :=
    sectionBounds_snd_le lines sl
  apply hrow i <;> omega

theorem entryLE_elim {x y : TimestampedEntry} (h : entryLE x y) :
    (x.timestamp ≠ none → y.timestamp ≠ none) ∧
    (∀ tx ty, x.timestamp = some tx → y.timestamp = some ty →
      ty.getTime ≤ tx.getTime) ∧
    (x.timestamp = none → y.timestamp = none →
      x.originalIndex ≤ y.originalIndex) := by
  rcases hx : x.timestamp with _ | tx <;> rcases hy : y.timestamp with _ | ty <;>
    simp only [entryLE, compareEntries, hx, hy] at h <;>
    refine ⟨?_, ?_, ?_⟩ <;> simp_all

/-! ### Theorems for the claims -/

/-- C1: the sorter's comparator orders two null-timestamp entries by
`originalIndex` ascending, a null-timestamp entry before any non-null one,
and two non-null entries descending by point-in-time; the sort is stable
(equal instants keep their encounter order), and in every sorted output
the null-timestamp (non-decodable) rows all precede the decodable ones,
the decodable ones being in non-increasing `getTime` order and the null
ones in their original order. -/
theorem claim_C1 :
    (∀ a b : TimestampedEntry, a.timestamp = none → b.timestamp = none →
       compareEntries a b = a.originalIndex - b.originalIndex) ∧
    (∀ a b : TimestampedEntry, a.timestamp = none → b.timestamp ≠ none →
       compareEntries a b < 0) ∧
    (∀ a b : TimestampedEntry, a.timestamp ≠ none → b.timestamp = none →
       0 < compareEntries a b) ∧
    (∀ (a b : TimestampedEntry) (ta tb : JSDate),
       a.timestamp = some ta → b.timestamp = some tb →
       compareEntries a b = tb.getTime - ta.getTime) ∧
    (∀ (l : List TimestampedEntry) (a b : TimestampedEntry) (ta tb : JSDate),
       a.timestamp = some ta → b.timestamp = some tb → ta.getTime = tb.getTime →
       List.Sublist [a, b] l → List.Sublist [a, b] (sortTimestampedEntries l)) ∧
    (∀ l : List TimestampedEntry, (sortTimestampedEntries l).Pairwise
       (fun x y => x.timestamp ≠ none → y.timestamp ≠ none)) ∧
    (∀ l : List TimestampedEntry, (sortTimestampedEntries l).Pairwise
       (fun x y => ∀ tx ty, x.timestamp = some tx → y.timestamp = some ty →
          ty.getTime ≤ tx.getTime)) ∧
    (∀ l : List TimestampedEntry, (sortTimestampedEntries l).Pairwise
       (fun x y => x.timestamp = none → y.timestamp = none →
          x.originalIndex ≤ y.originalIndex)) := by
  refine ⟨?_, ?_, ?_, ?_, ?_, ?_, ?_, ?_⟩
  · exact fun a b ha hb => compareEntries_none_none ha hb
  · intro a b ha hb
    obtain ⟨tb, htb⟩ := Option.ne_none_iff_exists'.mp hb
    simp [compareEntries, ha, htb]
  · intro a b ha hb
    obtain ⟨ta, hta⟩ := Option.ne_none_iff_exists'.mp ha
    simp [compareEntries, hta, hb]
  · exact fun a b ta tb ha hb => compareEntries_some_some ha hb
  · intro l a b ta tb ha hb heq hsub
    apply List.pair_sublist_insertionSort
    · show entryLE a b
      rw [entryLE, compareEntries_some_some ha hb, heq]
      omega
    · exact hsub
  · exact fun l => (sorted_sortTimestampedEntries l).imp (fun h => (entryLE_elim h).1)
  · exact fun l => (sorted_sortTimestampedEntries l).imp (fun h => (entryLE_elim h).2.1)
  · exact fun l => (sorted_sortTimestampedEntries l).imp (fun h => (entryLE_elim h).2.2)

/-- Witness for C1: the comparator puts a null entry before a dated one,
and two entries carrying the same instant stay in encounter order through
the sort. -/
theorem claim_C1_witness :
    compareEntries ⟨"- 999999999 - bad", none, 0⟩
      ⟨"- 20240101 - a", some ⟨2024, 1, 1, 0, 0⟩, 1⟩ < 0 ∧
    List.Sublist
      [⟨"- 20240101 - a", some ⟨2024, 1, 1, 0, 0⟩, 0⟩,
       ⟨"- 20240101 - b", some ⟨2024, 1, 1, 0, 0⟩, 1⟩]
      (sortTimestampedEntries
        [⟨"- 20240101 - a", some ⟨2024, 1, 1, 0, 0⟩, 0⟩,
         ⟨"- 20240101 - b", some ⟨2024, 1, 1, 0, 0⟩, 1⟩]) :=
  ⟨claim_C1.2.1 _ _ rfl (by simp),
   claim_C1.2.2.2.2.1 _ _ _ _ _ rfl rfl rfl (List.Sublist.refl _)⟩

/-- C7: a section range in which no line passes either the strict or the
loose timestamp-row test produces no rewritten document (the command
returns after showing the "No timestamped entries found" notice, with no
write). -/
theorem claim_C7 (lines : List String) (sl : Int) (hsl : sl = -1 ∨ 0 ≤ sl)
    (hrow : ∀ i : Nat, i < lines.length →
      (sectionBounds lines sl).1 ≤ (i : Int) → (i : Int) ≤ (sectionBounds lines sl).2 →
      isTimestampRow (lines.getD i "") = false) :
    sortTimestampsInSection lines sl = none := by
  have hempty := sectionScan_no_rows lines sl hsl hrow
  simp only [sortTimestampsInSection]
  rw [hempty]
  rfl

/-- Witness for C7: a two-line document with no timestamp rows is left
alone. -/
theorem claim_C7_witness :
    sortTimestampsInSection ["alpha", "beta"] (-1) = none :=
  claim_C7 ["alpha", "beta"] (-1) (Or.inl rfl) (by decide)

/-- C8: a candidate element with a missing or empty required attribute, or
whose permalink contains no `/r/<sub>/comments/<id>/` match, contributes no
output line (the candidate is skipped by a plain early return, never an
exception), and the extractor's output is exactly the rendering of the
surviving candidates in their input order. -/
theorem claim_C8 :
    (∀ p : PostElement,
       (attrMissing p.postTitle || attrMissing p.permalink ||
         attrMissing p.createdTimestamp) = true → processPost p = none) ∧
    (∀ (p : PostElement) (slug : String), p.permalink = some slug →
       findRedditPath slug.data = none → processPost p = none) ∧
    (∀ posts : List PostElement, extractRedditPosts posts =
       (posts.filter (fun p => (processPost p).isSome)).map
         (fun p => (processPost p).getD "")) := by
  refine ⟨?_, ?_, ?_⟩
  · intro p h
    simp [processPost, h]
  · intro p slug hs hf
    simp [processPost, hs, hf]
  · intro posts
    induction posts with
    | nil => rfl
    | cons p t ih =>
      rcases hp : processPost p with _ | line <;>
        simp [extractRedditPosts, List.filterMap_cons, hp, ih] <;>
        simpa [extractRedditPosts] using ih

/-- Witness for C8: an element with a permalink but no title is skipped. -/
theorem claim_C8_witness :
    processPost ⟨none, some "/r/test/comments/abc123/hello/", some "2024-06-18T16:45:00Z"⟩ =
      none ∧
    processPost ⟨some "T", some "/x/y/", some "2024-06-18T16:45:00Z"⟩ = none :=
  ⟨claim_C8.1 _ (by decide), claim_C8.2.1 _ "/x/y/" rfl (by decide)⟩

/-- C3: a candidate with nonempty attributes, a matching permalink and a
well-formed UTC `created-timestamp` is emitted as
`- <YYYYMMDDHHmm> - [<title>](<canonical url>)`, the 12-digit code being
the instant minus exactly 4 hours (14400000 ms) rendered by the two-padded
field formatter; in particular the spec's end-to-end example holds
exactly. -/
theorem claim_C3 :
    (∀ (p : PostElement) (title slug ts : String) (path : List Char) (t : Int),
       p.postTitle = some title → title ≠ "" →
       p.permalink = some slug → slug ≠ "" →
       p.createdTimestamp = some ts → ts ≠ "" →
       findRedditPath slug.data = some path →
       isoParseUTC ts = some t →
       processPost p = some ("- " ++ formatYYYYMMDDHHmm (msToJSDate (t - 14400000)) ++
         " - [" ++ title ++ "](" ++ ("https://www.reddit.com" ++ String.mk path) ++ ")")) ∧
    extractRedditPosts
        [⟨some "Hello", some "/r/test/comments/abc123/hello/",
          some "2024-06-18T16:45:00Z"⟩] =
      ["- 202406181245 - [Hello](https://www.reddit.com/r/test/comments/abc123/)"] := by
  constructor
  · intro p title slug ts path t h1 h2 h3 h4 h5 h6 h7 h8
    have hm1 : attrMissing (some title) = false := by simpa [attrMissing] using h2
    have hm2 : attrMissing (some slug) = false := by simpa [attrMissing] using h4
    have hm3 : attrMissing (some ts) = false := by simpa [attrMissing] using h6
    simp [processPost, h1, h3, h5, hm1, hm2, hm3, h7, h8]
  · decide

theorem isJsWs_not_isDigit {c : Char} (h : isJsWs c = true) : c.isDigit = false := by
  by_contra hd
  rw [Bool.not_eq_false] at hd
  rw [isDigit_not_isJsWs hd] at h
  cases h

theorem head_dropWhile_false {p : Char → Bool} :
    ∀ (l : List Char) (c : Char), (l.dropWhile p).head? = some c → p c = false
  | [], c => by simp
  | x :: t, c => by
    by_cases hx : p x = true
    · rw [List.dropWhile_cons, if_pos hx]
      exact head_dropWhile_false t c
    · rw [List.dropWhile_cons, if_neg hx]
      intro h
      obtain rfl : x = c := by simpa using h
      simpa using hx

/-- Characterization of the shared shape scan: it yields the digit run `ds`
exactly when the line decomposes as dash, whitespace run, digits,
whitespace run, dash, whitespace, remainder. -/
theorem timestampDigits_eq_some_iff {line : String} {ds : List Char} :
    timestampDigits line = some ds ↔
    ∃ (ws1 ws2 rest : List Char) (c : Char),
      line.data = '-' :: (ws1 ++ (ds ++ (ws2 ++ ('-' :: c :: rest)))) ∧
      ws1 ≠ [] ∧ ws2 ≠ [] ∧ ds ≠ [] ∧
      (∀ x ∈ ws1, isJsWs x = true) ∧ (∀ x ∈ ws2, isJsWs x = true) ∧
      (∀ x ∈ ds, x.isDigit = true) ∧ isJsWs c = true := by
  constructor
  · intro h
    simp only [timestampDigits] at h
    split at h
    case h_2 => exact absurd h (by simp)
    case h_1 r0 heq =>
      split at h
      case h_2 => exact absurd h (by simp)
      case h_1 c rest heq2 =>
        split at h
        case isFalse => exact absurd h (by simp)
        case isTrue hcond =>
          simp only [Bool.and_eq_true, decide_eq_true_eq] at hcond
          obtain ⟨⟨hw1, hw2⟩, hc⟩ := hcond
          obtain rfl : (r0.dropWhile isJsWs).takeWhile Char.isDigit = ds := by
            simpa using h
          refine ⟨r0.takeWhile isJsWs,
            ((r0.dropWhile isJsWs).dropWhile Char.isDigit).takeWhile isJsWs,
            rest, c, ?_, ?_, ?_, ?_, ?_, ?_, ?_, hc⟩
          · rw [heq]
            congr 1
            rw [← heq2, List.takeWhile_append_dropWhile,
              List.takeWhile_append_dropWhile, List.takeWhile_append_dropWhile]
          · intro hn; rw [hn] at hw1; simp at hw1
          · intro hn; rw [hn] at hw2; simp at hw2
          · intro hn
            cases hr1 : r0.dropWhile isJsWs with
            | nil => rw [hr1] at hw2; simp at hw2
            | cons a t =>
              rw [hr1] at hn hw2
              have ha : Char.isDigit a = false := by
                rw [List.takeWhile_cons] at hn
                by_cases h2 : Char.isDigit a = true
                · rw [if_pos h2] at hn; cases hn
                · simpa using h2
              rw [List.dropWhile_cons, if_neg (by simp [ha])] at hw2
              have ha2 : isJsWs a = true := by
                rw [List.takeWhile_cons] at hw2
                by_cases h2 : isJsWs a = true
                · exact h2
                · rw [if_neg h2] at hw2; simp at hw2
              have := head_dropWhile_false r0 a (by rw [hr1]; rfl)
              rw [this] at ha2
              cases ha2
          · exact fun x hx => List.mem_takeWhile_imp hx
          · exact fun x hx => List.mem_takeWhile_imp hx
          · exact fun x hx => List.mem_takeWhile_imp hx
  · rintro ⟨ws1, ws2, rest, c, hline, hw1, hw2, hds, hws1, hws2, hdig, hc⟩
    obtain ⟨d0, ds0, rfl⟩ := List.exists_cons_of_ne_nil hds
    obtain ⟨w0, ws20, rfl⟩ := List.exists_cons_of_ne_nil hw2
    have step1 := takeWhile_append_all ws1
      ((d0 :: ds0) ++ ((w0 :: ws20) ++ ('-' :: c :: rest))) hws1
      (by
        intro x hx
        simp only [List.cons_append, List.head?_cons, Option.some.injEq] at hx
        rw [← hx]
        exact isDigit_not_isJsWs (hdig d0 (by simp)))
    have step2 := takeWhile_append_all (d0 :: ds0)
      ((w0 :: ws20) ++ ('-' :: c :: rest)) hdig
      (by
        intro x hx
        simp only [List.cons_append, List.head?_cons, Option.some.injEq] at hx
        rw [← hx]
        exact isJsWs_not_isDigit (hws2 w0 (by simp)))
    have step3 := takeWhile_append_all (w0 :: ws20) ('-' :: c :: rest) hws2
      (by
        intro x hx
        simp only [List.head?_cons, Option.some.injEq] at hx
        rw [← hx]
        exact dash_not_isJsWs)
    simp only [timestampDigits, hline]
    rw [step1.1, step1.2, step2.1, step2.2, step3.1, step3.2]
    have hl1 : 1 ≤ ws1.length := by
      cases ws1 with
      | nil => exact absurd rfl hw1
      | cons a t => simp
    simp [hc, hl1]

theorem parseTimestamp_isSome_iff {line : String} :
    (parseTimestamp line).isSome = true ↔
    ∃ ds, timestampDigits line = some ds ∧ (ds.length = 8 ∨ ds.length = 12) := by
  cases hd : timestampDigits line with
  | none => simp [parseTimestamp, hd]
  | some ds =>
    simp only [parseTimestamp, hd]
    by_cases h8 : ds.length = 8
    · simp [h8]
    · by_cases h12 : ds.length = 12
      · simp [h8, h12]
      · simp [h8, h12]

theorem looseTimestampMatch_iff_digits {line : String} :
    looseTimestampMatch line = true ↔
    ∃ ds, timestampDigits line = some ds ∧ 8 ≤ ds.length ∧ ds.length ≤ 12 := by
  cases hd : timestampDigits line with
  | none => simp [looseTimestampMatch, hd]
  | some ds => simp [looseTimestampMatch, hd]

/-- Decomposition of the section scan: the timestamp-row entries are
exactly the lines passing `isTimestampRow`, carrying their (possibly null)
strict parse and absolute index, and the rest are carried over in
encounter order. -/
theorem scanEntries_eq (lines : List String) :
    ∀ idxs : List Nat,
      scanEntries lines idxs =
        ((idxs.filter (fun i => isTimestampRow (lines.getD i ""))).map
          (fun i => ⟨lines.getD i "", parseTimestamp (lines.getD i ""), (i : Int)⟩),
         (idxs.filter (fun i => !isTimestampRow (lines.getD i ""))).map
          (fun i => lines.getD i ""))
  | [] => rfl
  | i :: rest => by
    have ih := scanEntries_eq lines rest
    cases hb : isTimestampRow (lines.getD i "") with
    | true =>
      simp only [scanEntries, ih, List.filter_cons, hb]
      simp
    | false =>
      simp only [scanEntries, ih, List.filter_cons, hb]
      simp

/-- C2 (amended: the grammar's separators are `\s+` whitespace runs, not
single spaces): the strict parse yields a non-null timestamp exactly for
lines of shape dash, whitespace, exactly 8 or 12 digits, whitespace, dash,
whitespace; the loose test accepts exactly the same shape with 8–12
digits; and the section scan routes a line into the timestamp bucket,
carrying its (null if only loosely matching) strict parse, exactly when
the strict-or-loose test passes, every other line going to the
non-timestamped list. -/
theorem claim_C2 :
    (∀ line : String, (parseTimestamp line).isSome = true ↔
      ∃ (ds ws1 ws2 rest : List Char) (c : Char),
        line.data = '-' :: (ws1 ++ (ds ++ (ws2 ++ ('-' :: c :: rest)))) ∧
        ws1 ≠ [] ∧ ws2 ≠ [] ∧
        (∀ x ∈ ws1, isJsWs x = true) ∧ (∀ x ∈ ws2, isJsWs x = true) ∧
        (∀ x ∈ ds, x.isDigit = true) ∧ isJsWs c = true ∧
        (ds.length = 8 ∨ ds.length = 12)) ∧
    (∀ line : String, looseTimestampMatch line = true ↔
      ∃ (ds ws1 ws2 rest : List Char) (c : Char),
        line.data = '-' :: (ws1 ++ (ds ++ (ws2 ++ ('-' :: c :: rest)))) ∧
        ws1 ≠ [] ∧ ws2 ≠ [] ∧
        (∀ x ∈ ws1, isJsWs x = true) ∧ (∀ x ∈ ws2, isJsWs x = true) ∧
        (∀ x ∈ ds, x.isDigit = true) ∧ isJsWs c = true ∧
        8 ≤ ds.length ∧ ds.length ≤ 12) ∧
    (∀ (lines : List String) (idxs : List Nat),
      scanEntries lines idxs =
        ((idxs.filter (fun i => isTimestampRow (lines.getD i ""))).map
          (fun i => ⟨lines.getD i "", parseTimestamp (lines.getD i ""), (i : Int)⟩),
         (idxs.filter (fun i => !isTimestampRow (lines.getD i ""))).map
          (fun i => lines.getD i ""))) := by
  refine ⟨?_, ?_, fun lines idxs => scanEntries_eq lines idxs⟩
  · intro line
    rw [parseTimestamp_isSome_iff]
    constructor
    · rintro ⟨ds, hd, hlen⟩
      obtain ⟨ws1, ws2, rest, c, hline, hw1, hw2, _, hws1, hws2, hdig, hc⟩ :=
        timestampDigits_eq_some_iff.mp hd
      exact ⟨ds, ws1, ws2, rest, c, hline, hw1, hw2, hws1, hws2, hdig, hc, hlen⟩
    · rintro ⟨ds, ws1, ws2, rest, c, hline, hw1, hw2, hws1, hws2, hdig, hc, hlen⟩
      refine ⟨ds, timestampDigits_eq_some_iff.mpr
        ⟨ws1, ws2, rest, c, hline, hw1, hw2, ?_, hws1, hws2, hdig, hc⟩, hlen⟩
      intro hn
      rw [hn] at hlen
      simp at hlen
  · intro line
    rw [looseTimestampMatch_iff_digits]
    constructor
    · rintro ⟨ds, hd, hlen⟩
      obtain ⟨ws1, ws2, rest, c, hline, hw1, hw2, _, hws1, hws2, hdig, hc⟩ :=
        timestampDigits_eq_some_iff.mp hd
      exact ⟨ds, ws1, ws2, rest, c, hline, hw1, hw2, hws1, hws2, hdig, hc, hlen.1, hlen.2⟩
    · rintro ⟨ds, ws1, ws2, rest, c, hline, hw1, hw2, hws1, hws2, hdig, hc, hl1, hl2⟩
      refine ⟨ds, timestampDigits_eq_some_iff.mpr
        ⟨ws1, ws2, rest, c, hline, hw1, hw2, ?_, hws1, hws2, hdig, hc⟩, hl1, hl2⟩
      intro hn
      rw [hn] at hl1
      simp at hl1

/-- Counterexample for C2 as stated: `"-  20240101 - x"` (two spaces after
the dash) does not start with `- ` followed by digits — neither the
claim's strict nor its loose literal grammar accepts it — yet the strict
parser yields a non-null timestamp for it, and it is routed into the
timestamp bucket. -/
theorem claim_C2_counterexample :
    (parseTimestamp "-  20240101 - x").isSome = true ∧
    specStrictGrammar "-  20240101 - x" = false ∧
    specLooseGrammar "-  20240101 - x" = false ∧
    isTimestampRow "-  20240101 - x" = true := by decide

/-- Witness for C2: the shape characterization is inhabited at the
canonical line `"- 20240101 - x"`. -/
theorem claim_C2_witness :
    ∃ (ds ws1 ws2 rest : List Char) (c : Char),
      ("- 20240101 - x" : String).data =
        '-' :: (ws1 ++ (ds ++ (ws2 ++ ('-' :: c :: rest)))) ∧
      ws1 ≠ [] ∧ ws2 ≠ [] ∧
      (∀ x ∈ ws1, isJsWs x = true) ∧ (∀ x ∈ ws2, isJsWs x = true) ∧
      (∀ x ∈ ds, x.isDigit = true) ∧ isJsWs c = true ∧
      (ds.length = 8 ∨ ds.length = 12) :=
  (claim_C2.1 "- 20240101 - x").mp (by decide)

theorem scanForBoundary_spec (lines : List String) (lvl : Nat) :
    ∀ (n s : Nat) (dflt : Int),
      (∃ j : Nat, s ≤ j ∧ j < s + n ∧
        (0 < getHeadingLevel (lines.getD j "") ∧
          getHeadingLevel (lines.getD j "") ≤ lvl) ∧
        scanForBoundary lines lvl (List.range' s n) dflt = (j : Int) - 1 ∧
        (∀ k : Nat, s ≤ k → k < j →
          ¬(0 < getHeadingLevel (lines.getD k "") ∧
            getHeadingLevel (lines.getD k "") ≤ lvl))) ∨
      ((∀ j : Nat, s ≤ j → j < s + n →
          ¬(0 < getHeadingLevel (lines.getD j "") ∧
            getHeadingLevel (lines.getD j "") ≤ lvl)) ∧
        scanForBoundary lines lvl (List.range' s n) dflt = dflt)
  | 0, s, dflt => Or.inr ⟨fun j h1 h2 => by omega, rfl⟩
  | n + 1, s, dflt => by
    rw [List.range'_succ s n 1]
    by_cases hs : 0 < getHeadingLevel (lines.getD s "") ∧
        getHeadingLevel (lines.getD s "") ≤ lvl
    · refine Or.inl ⟨s, Nat.le_refl s, by omega, hs, ?_, fun k h1 h2 => by omega⟩
      simp only [scanForBoundary]
      rw [if_pos hs]
    · rcases scanForBoundary_spec lines lvl n (s + 1) dflt with
        ⟨j, h1, h2, hj, heq, hmin⟩ | ⟨hall, heq⟩
      · refine Or.inl ⟨j, by omega, by omega, hj, ?_, ?_⟩
        · simp only [scanForBoundary]
          rw [if_neg hs]
          exact heq
        · intro k hk1 hk2
          rcases Nat.eq_or_lt_of_le hk1 with h | h
          · rw [← h]; exact hs
          · exact hmin k h hk2
      · refine Or.inr ⟨?_, ?_⟩
        · intro j hj1 hj2
          rcases Nat.eq_or_lt_of_le hj1 with h | h
          · rw [← h]; exact hs
          · exact hall j h (by omega)
        · simp only [scanForBoundary]
          rw [if_neg hs]
          exact heq

/-- C5 (amended: a line terminates the section when it matches
`/^(#{1,6})\s+/` — 1 to 6 markers followed by whitespace, text after the
whitespace not required): the sentinel `-1` selects the whole document;
for a chosen heading line `h` of positive level `L`, the section starts at
`h + 1` and ends immediately before the first later line whose heading
level is positive and at most `L`, or at the last line when none exists. -/
theorem claim_C5 :
    (∀ lines : List String, sectionBounds lines (-1) = (0, (lines.length : Int) - 1)) ∧
    (∀ (lines : List String) (h L : Nat), h < lines.length →
      getHeadingLevel (lines.getD h "") = L → 0 < L →
      (sectionBounds lines (h : Int)).1 = (h : Int) + 1 ∧
      ((∃ j : Nat, h + 1 ≤ j ∧ j < lines.length ∧
          0 < getHeadingLevel (lines.getD j "") ∧
          getHeadingLevel (lines.getD j "") ≤ L ∧
          (sectionBounds lines (h : Int)).2 = (j : Int) - 1 ∧
          (∀ k : Nat, h + 1 ≤ k → k < j →
            ¬(0 < getHeadingLevel (lines.getD k "") ∧
              getHeadingLevel (lines.getD k "") ≤ L))) ∨
        ((∀ j : Nat, h + 1 ≤ j → j < lines.length →
            ¬(0 < getHeadingLevel (lines.getD j "") ∧
              getHeadingLevel (lines.getD j "") ≤ L)) ∧
          (sectionBounds lines (h : Int)).2 = (lines.length : Int) - 1))) := by
  constructor
  · intro lines
    simp [sectionBounds]
  · intro lines h L hlen hlvl hpos
    have hne : (h : Int) ≠ -1 := by omega
    have ht1 : ((h : Int) + 1).toNat = h + 1 := by omega
    have ht2 : ((h : Int)).toNat = h := by omega
    constructor
    · simp only [sectionBounds, if_neg hne]
    · simp only [sectionBounds, if_neg hne, ht1, ht2, hlvl]
      have hsum : (h + 1) + (lines.length - (h + 1)) = lines.length := by omega
      rcases scanForBoundary_spec lines L (lines.length - (h + 1)) (h + 1)
          ((lines.length : Int) - 1) with
        ⟨j, h1, h2, hj, heq, hmin⟩ | ⟨hall, heq⟩
      · exact Or.inl ⟨j, h1, by omega, hj.1, hj.2, heq, hmin⟩
      · exact Or.inr ⟨fun j hj1 hj2 => hall j hj1 (by omega), heq⟩

/-- Counterexample for C5 as stated: in
`["# H", "body", "# ", "rest"]` with the level-1 heading chosen, line 2 is
`"# "` — a hash and whitespace with no text, so not a heading under the
claim's grammar, making the claimed end line 3 — but `getHeadingLevel`
accepts it and the code ends the section at line 1. -/
theorem claim_C5_counterexample :
    specHeadingLevel "# H" = 1 ∧
    specSectionEnd ["# H", "body", "# ", "rest"] 0 1 = 3 ∧
    (sectionBounds ["# H", "body", "# ", "rest"] 0).2 = 1 := by decide

/-- Witness for C5: a document where the chosen heading's section is
closed by a later same-level heading. -/
theorem claim_C5_witness :
    (0 < ["# A", "x", "# B", "y"].length ∧
      getHeadingLevel (["# A", "x", "# B", "y"].getD 0 "") = 1 ∧ 0 < 1) ∧
    ((sectionBounds ["# A", "x", "# B", "y"] ((0 : Nat) : Int)).1 =
        ((0 : Nat) : Int) + 1 ∧
      ((∃ j : Nat, 0 + 1 ≤ j ∧ j < ["# A", "x", "# B", "y"].length ∧
          0 < getHeadingLevel (["# A", "x", "# B", "y"].getD j "") ∧
          getHeadingLevel (["# A", "x", "# B", "y"].getD j "") ≤ 1 ∧
          (sectionBounds ["# A", "x", "# B", "y"] ((0 : Nat) : Int)).2 = (j : Int) - 1 ∧
          (∀ k : Nat, 0 + 1 ≤ k → k < j →
            ¬(0 < getHeadingLevel (["# A", "x", "# B", "y"].getD k "") ∧
              getHeadingLevel (["# A", "x", "# B", "y"].getD k "") ≤ 1))) ∨
        ((∀ j : Nat, 0 + 1 ≤ j → j < ["# A", "x", "# B", "y"].length →
            ¬(0 < getHeadingLevel (["# A", "x", "# B", "y"].getD j "") ∧
              getHeadingLevel (["# A", "x", "# B", "y"].getD j "") ≤ 1)) ∧
          (sectionBounds ["# A", "x", "# B", "y"] ((0 : Nat) : Int)).2 =
            (["# A", "x", "# B", "y"].length : Int) - 1))) :=
  ⟨⟨by decide, by decide, by decide⟩,
    claim_C5.2 ["# A", "x", "# B", "y"] 0 1 (by decide) (by decide) (by decide)⟩

theorem scanEntries_length_sum (lines : List String) :
    ∀ idxs : List Nat,
      (scanEntries lines idxs).1.length + (scanEntries lines idxs).2.length =
        idxs.length
  | [] => rfl
  | i :: rest => by
    have ih := scanEntries_length_sum lines rest
    cases hb : isTimestampRow (lines.getD i "") with
    | true =>
      simp only [scanEntries, hb]
      simp
      omega
    | false =>
      simp only [scanEntries, hb]
      simp
      omega

theorem sectionContent_length_le (lines : List String) (sl : Int) :
    (sectionSorted lines sl ++ sectionKept lines sl).length ≤ sectionLen lines sl := by
  have h1 := scanEntries_length_sum lines (sectionIdxList lines sl)
  have h2 : (sectionIdxList lines sl).length = sectionLen lines sl :=
    List.length_range' _ _ _
  have h3 : (sectionKept lines sl).length ≤
      (scanEntries lines (sectionIdxList lines sl)).2.length :=
    List.length_filter_le _ _
  have h4 : (sectionSorted lines sl).length =
      (scanEntries lines (sectionIdxList lines sl)).1.length := by
    simp [sectionSorted, sortTimestampedEntries]
  rw [List.length_append]
  omega

theorem sortTimestampsInSection_some_elim {lines : List String} {sl : Int}
    {newLines : List String}
    (h : sortTimestampsInSection lines sl = some newLines) :
    (scanEntries lines (sectionIdxList lines sl)).1 ≠ [] ∧
    newLines = lines.take (sectionStart lines sl) ++
      ((sectionSorted lines sl ++ sectionKept lines sl).take (sectionLen lines sl) ++
        List.replicate (sectionLen lines sl -
          (sectionSorted lines sl ++ sectionKept lines sl).length) "") ++
      lines.drop ((sectionBounds lines sl).2 + 1).toNat := by
  simp only [sortTimestampsInSection] at h
  split at h
  case isTrue hc => cases h
  case isFalse hc =>
    refine ⟨by simpa [List.isEmpty_iff] using hc, ?_⟩
    exact (Option.some_inj.mp h).symm

theorem section_range_facts {lines : List String} {sl : Int}
    (hsl : sl = -1 ∨ 0 ≤ sl) (hpos : 0 < sectionLen lines sl) :
    (sectionStart lines sl : Int) = (sectionBounds lines sl).1 ∧
    (sectionStart lines sl : Int) + (sectionLen lines sl : Int) =
      (sectionBounds lines sl).2 + 1 ∧
    sectionStart lines sl + sectionLen lines sl = ((sectionBounds lines sl).2 + 1).toNat ∧
    sectionStart lines sl + sectionLen lines sl ≤ lines.length := by
  have h0 := sectionBounds_fst_nonneg lines sl hsl
  have h1 := sectionBounds_snd_le lines sl
  unfold sectionStart sectionLen at *
  omega

/-- C6: every rewrite performed by the sorter preserves the total line
count, and every line outside `[startLine, endLine]` keeps its exact
original text. -/
theorem claim_C6 (lines : List String) (sl : Int) (newLines : List String)
    (hsl : sl = -1 ∨ 0 ≤ sl)
    (hres : sortTimestampsInSection lines sl = some newLines) :
    newLines.length = lines.length ∧
    (∀ i : Nat, i < lines.length →
      ((i : Int) < (sectionBounds lines sl).1 ∨ (sectionBounds lines sl).2 < (i : Int)) →
      newLines.getD i "" = lines.getD i "") := by
  obtain ⟨hne, heq⟩ := sortTimestampsInSection_some_elim hres
  have hpos : 0 < sectionLen lines sl := by
    by_contra hz
    have h0 : sectionLen lines sl = 0 := by omega
    have hidx : sectionIdxList lines sl = [] := by
      simp [sectionIdxList, h0]
    rw [hidx] at hne
    exact hne rfl
  obtain ⟨hcast1, hcast2, hsum, hle⟩ := section_range_facts hsl hpos
  have hclen := sectionContent_length_le lines sl
  have hAlen : (lines.take (sectionStart lines sl)).length = sectionStart lines sl := by
    rw [List.length_take]
    omega
  have hBlen : ((sectionSorted lines sl ++ sectionKept lines sl).take (sectionLen lines sl) ++
      List.replicate (sectionLen lines sl -
        (sectionSorted lines sl ++ sectionKept lines sl).length) "").length =
      sectionLen lines sl := by
    rw [List.length_append, List.length_take, List.length_replicate]
    omega
  have hClen : (lines.drop ((sectionBounds lines sl).2 + 1).toNat).length =
      lines.length - (sectionStart lines sl + sectionLen lines sl) := by
    rw [List.length_drop, hsum]
  constructor
  · rw [heq, List.length_append, List.length_append, hAlen, hBlen, hClen]
    omega
  · intro i hi hout
    rw [heq]
    rw [List.getD_eq_getElem?_getD, List.getD_eq_getElem?_getD]
    rcases hout with hlt | hgt
    · have his : i < sectionStart lines sl := by omega
      rw [List.getElem?_append_left (by rw [List.length_append, hAlen, hBlen]; omega),
        List.getElem?_append_left (by rw [hAlen]; omega),
        List.getElem?_take, if_pos his]
    · have his : sectionStart lines sl + sectionLen lines sl ≤ i := by omega
      rw [List.getElem?_append_right (by rw [List.length_append, hAlen, hBlen]; omega),
        List.getElem?_drop, List.length_append, hAlen, hBlen, hsum]
      congr 2
      omega

/-- Witness for C6: rewriting the section under `"# H"` keeps the document
at three lines and leaves the heading untouched. -/
theorem claim_C6_witness :
    (["# H", "- 20240101 - a", "x"] : List String).length = 3 ∧
    (sortTimestampsInSection ["# H", "- 20240101 - a", "x"] 0 =
      some ["# H", "- 20240101 - a", "x"]) ∧
    ["# H", "- 20240101 - a", "x"].length = ["# H", "- 20240101 - a", "x"].length ∧
    (∀ i : Nat, i < (["# H", "- 20240101 - a", "x"] : List String).length →
      ((i : Int) < (sectionBounds ["# H", "- 20240101 - a", "x"] 0).1 ∨
        (sectionBounds ["# H", "- 20240101 - a", "x"] 0).2 < (i : Int)) →
      (["# H", "- 20240101 - a", "x"] : List String).getD i "" =
        (["# H", "- 20240101 - a", "x"] : List String).getD i "") :=
  ⟨by decide, by decide,
    (claim_C6 ["# H", "- 20240101 - a", "x"] 0 ["# H", "- 20240101 - a", "x"]
      (Or.inr (by decide)) (by decide)).1,
    (claim_C6 ["# H", "- 20240101 - a", "x"] 0 ["# H", "- 20240101 - a", "x"]
      (Or.inr (by decide)) (by decide)).2⟩

theorem dropWhile_ne_nil_of_mem {p : Char → Bool} :
    ∀ {l : List Char} {x : Char}, x ∈ l → p x = false → l.dropWhile p ≠ []
  | a :: t, x, hx, hpx => by
    by_cases ha : p a = true
    · rw [List.dropWhile_cons, if_pos ha]
      have hxt : x ∈ t := by
        rcases List.mem_cons.mp hx with h | h
        · rw [h] at hpx; rw [hpx] at ha; cases ha
        · exact h
      exact dropWhile_ne_nil_of_mem hxt hpx
    · rw [List.dropWhile_cons, if_neg ha]
      simp

theorem isTimestampRow_digits {line : String} (h : isTimestampRow line = true) :
    ∃ ds, timestampDigits line = some ds := by
  simp only [isTimestampRow, Bool.or_eq_true] at h
  cases hd : timestampDigits line with
  | some ds => exact ⟨ds, rfl⟩
  | none =>
    rcases h with h | h
    · rw [parseTimestamp, hd] at h; cases h
    · rw [looseTimestampMatch, hd] at h; cases h

theorem isTimestampRow_trim_ne {line : String} (h : isTimestampRow line = true) :
    (jsTrim line != "") = true := by
  obtain ⟨ds, hd⟩ := isTimestampRow_digits h
  obtain ⟨ws1, ws2, rest, c, hline, -⟩ := timestampDigits_eq_some_iff.mp hd
  apply bne_iff_ne.mpr
  intro hc
  have hdata := congrArg String.data hc
  simp only [jsTrim] at hdata
  have hnil : ((line.data.dropWhile isJsWs).reverse.dropWhile isJsWs).reverse = [] := by
    simpa using hdata
  rw [List.reverse_eq_nil_iff] at hnil
  have hdw : line.data.dropWhile isJsWs = line.data := by
    rw [hline, List.dropWhile_cons, if_neg (by simp [dash_not_isJsWs])]
  rw [hdw] at hnil
  exact dropWhile_ne_nil_of_mem
    (List.mem_reverse.mpr (by rw [hline]; simp)) dash_not_isJsWs hnil

theorem scanEntries_perm (lines : List String) :
    ∀ idxs : List Nat,
      List.Perm
        ((scanEntries lines idxs).1.map TimestampedEntry.line ++ (scanEntries lines idxs).2)
        (idxs.map (fun i => lines.getD i ""))
  | [] => by simp [scanEntries]
  | i :: rest => by
    have ih := scanEntries_perm lines rest
    cases hb : isTimestampRow (lines.getD i "") with
    | true =>
      simp only [scanEntries, hb, if_true, List.map_cons, List.cons_append]
      simpa using ih.cons (lines.getD i "")
    | false =>
      simp only [scanEntries, hb, List.map_cons]
      simp only [Bool.false_eq_true, if_false]
      exact List.perm_middle.trans (ih.cons (lines.getD i ""))

theorem slice_eq_map_range' (lines : List String) (s n : Nat)
    (h : s + n ≤ lines.length) :
    (lines.drop s).take n = (List.range' s n).map (fun i => lines.getD i "") := by
  apply List.ext_getElem?
  intro j
  by_cases hj : j < n
  · rw [List.getElem?_take, if_pos hj, List.getElem?_drop,
      List.getElem?_map, List.getElem?_range' _ _ hj]
    have hlt : s + j < lines.length := by omega
    rw [List.getElem?_eq_getElem hlt]
    simp [List.getD_eq_getElem lines "" hlt]
    rw [List.getElem?_eq_getElem hlt]
    rfl
  · rw [List.getElem?_take, if_neg hj]
    rw [List.getElem?_eq_none]
    simp
    omega

theorem entriesLines_pass {lines : List String} {idxs : List Nat} {a : String}
    (ha : a ∈ (scanEntries lines idxs).1.map TimestampedEntry.line) :
    (jsTrim a != "") = true := by
  obtain ⟨en, hen, rfl⟩ := List.mem_map.mp ha
  rw [scanEntries_eq lines idxs] at hen
  obtain ⟨i, hi, rfl⟩ := List.mem_map.mp hen
  exact isTimestampRow_trim_ne (List.mem_filter.mp hi).2

/-- C4: whenever the sorter rewrites, the resulting document is exactly the
prefix before the range, then the sorted timestamp-row lines, then the
non-blank non-timestamped lines in encounter order, then blank padding
(with no truncation, since the retained content never exceeds the range),
then the suffix after the range; and the spec's three-line example sorts
to `["- 20240601 - B", "- 20240101 - A", "note"]`. -/
theorem claim_C4 :
    (∀ (lines : List String) (sl : Int) (newLines : List String),
      sortTimestampsInSection lines sl = some newLines →
      newLines = lines.take (sectionStart lines sl) ++
        (sectionSorted lines sl ++ sectionKept lines sl ++
          List.replicate (sectionLen lines sl -
            (sectionSorted lines sl ++ sectionKept lines sl).length) "") ++
        lines.drop ((sectionBounds lines sl).2 + 1).toNat) ∧
    sortTimestampsInSection ["- 20240101 - A", "note", "- 20240601 - B"] (-1) =
      some ["- 20240601 - B", "- 20240101 - A", "note"] := by
  constructor
  · intro lines sl newLines hres
    obtain ⟨-, heq⟩ := sortTimestampsInSection_some_elim hres
    rw [List.take_of_length_le (sectionContent_length_le lines sl)] at heq
    exact heq
  · decide

/-- Witness for C4: the structural equation at the spec's example. -/
theorem claim_C4_witness :
    (["- 20240601 - B", "- 20240101 - A", "note"] : List String) =
      (["- 20240101 - A", "note", "- 20240601 - B"] : List String).take
          (sectionStart ["- 20240101 - A", "note", "- 20240601 - B"] (-1)) ++
        (sectionSorted ["- 20240101 - A", "note", "- 20240601 - B"] (-1) ++
          sectionKept ["- 20240101 - A", "note", "- 20240601 - B"] (-1) ++
          List.replicate (sectionLen ["- 20240101 - A", "note", "- 20240601 - B"] (-1) -
            (sectionSorted ["- 20240101 - A", "note", "- 20240601 - B"] (-1) ++
              sectionKept ["- 20240101 - A", "note", "- 20240601 - B"] (-1)).length) "") ++
        (["- 20240101 - A", "note", "- 20240601 - B"] : List String).drop
          ((sectionBounds ["- 20240101 - A", "note", "- 20240601 - B"] (-1)).2 + 1).toNat :=
  claim_C4.1 ["- 20240101 - A", "note", "- 20240601 - B"] (-1)
    ["- 20240601 - B", "- 20240101 - A", "note"] claim_C4.2

/-- C10: a rewrite neither drops nor duplicates nor alters any non-blank
line of the range: the multiset of lines whose trim is nonempty inside the
rewritten range equals that of the original range. -/
theorem claim_C10 (lines : List String) (sl : Int) (newLines : List String)
    (hsl : sl = -1 ∨ 0 ≤ sl)
    (hres : sortTimestampsInSection lines sl = some newLines) :
    List.Perm
      (((newLines.drop (sectionStart lines sl)).take (sectionLen lines sl)).filter
        (fun l => jsTrim l != ""))
      (((lines.drop (sectionStart lines sl)).take (sectionLen lines sl)).filter
        (fun l => jsTrim l != "")) := by
  obtain ⟨hne, heq⟩ := sortTimestampsInSection_some_elim hres
  rw [List.take_of_length_le (sectionContent_length_le lines sl)] at heq
  have hpos : 0 < sectionLen lines sl := by
    by_contra hz
    have h0 : sectionLen lines sl = 0 := by omega
    have hidx : sectionIdxList lines sl = [] := by simp [sectionIdxList, h0]
    rw [hidx] at hne
    exact hne rfl
  obtain ⟨hcast1, hcast2, hsum, hle⟩ := section_range_facts hsl hpos
  have hclen := sectionContent_length_le lines sl
  have hAlen : (lines.take (sectionStart lines sl)).length = sectionStart lines sl := by
    rw [List.length_take]
    omega
  have hmidlen : ((sectionSorted lines sl ++ sectionKept lines sl) ++
      List.replicate (sectionLen lines sl -
        (sectionSorted lines sl ++ sectionKept lines sl).length) "").length =
      sectionLen lines sl := by
    rw [List.length_append, List.length_replicate]
    omega
  have hslice : (newLines.drop (sectionStart lines sl)).take (sectionLen lines sl) =
      (sectionSorted lines sl ++ sectionKept lines sl) ++
        List.replicate (sectionLen lines sl -
          (sectionSorted lines sl ++ sectionKept lines sl).length) "" := by
    rw [heq, List.append_assoc, List.drop_left' hAlen, List.take_left' hmidlen]
  have hr : (lines.drop (sectionStart lines sl)).take (sectionLen lines sl) =
      (sectionIdxList lines sl).map (fun i => lines.getD i "") := by
    have hsl2 := slice_eq_map_range' lines (sectionStart lines sl) (sectionLen lines sl) hle
    rw [hsl2]
    rfl
  rw [hslice, hr]
  rw [List.filter_append, List.filter_append]
  have hrep : (List.replicate (sectionLen lines sl -
      (sectionSorted lines sl ++ sectionKept lines sl).length) "").filter
        (fun l => jsTrim l != "") = [] := by
    rw [List.filter_eq_nil_iff]
    intro a ha
    rw [List.eq_of_mem_replicate ha]
    decide
  have hsorted_f : (sectionSorted lines sl).filter (fun l => jsTrim l != "") =
      sectionSorted lines sl := by
    apply List.filter_eq_self.mpr
    intro a ha
    apply entriesLines_pass
    have hp : List.Perm ((sortTimestampedEntries
          (scanEntries lines (sectionIdxList lines sl)).1).map TimestampedEntry.line)
        ((scanEntries lines (sectionIdxList lines sl)).1.map TimestampedEntry.line) :=
      (perm_sortTimestampedEntries _).map TimestampedEntry.line
    exact hp.subset ha
  have hkept_f : (sectionKept lines sl).filter (fun l => jsTrim l != "") =
      sectionKept lines sl := by
    simp only [sectionKept]
    rw [List.filter_filter]
    simp [Bool.and_self]
  rw [hrep, hsorted_f, hkept_f, List.append_nil]
  have hperm := (scanEntries_perm lines (sectionIdxList lines sl)).filter
    (fun l => jsTrim l != "")
  rw [List.filter_append] at hperm
  have hes_f : ((scanEntries lines (sectionIdxList lines sl)).1.map
      TimestampedEntry.line).filter (fun l => jsTrim l != "") =
      (scanEntries lines (sectionIdxList lines sl)).1.map TimestampedEntry.line :=
    List.filter_eq_self.mpr (fun a ha => entriesLines_pass ha)
  rw [hes_f] at hperm
  have h1 : List.Perm (sectionSorted lines sl ++ sectionKept lines sl)
      ((scanEntries lines (sectionIdxList lines sl)).1.map TimestampedEntry.line ++
        sectionKept lines sl) :=
    ((perm_sortTimestampedEntries _).map TimestampedEntry.line).append_right _
  exact h1.trans hperm

/-- Witness for C10: the non-blank lines of the example's rewritten range
are a permutation of the original ones. -/
theorem claim_C10_witness :
    List.Perm
      ((((["- 20240601 - B", "- 20240101 - A", "note"] : List String).drop
          (sectionStart ["- 20240101 - A", "note", "- 20240601 - B"] (-1))).take
            (sectionLen ["- 20240101 - A", "note", "- 20240601 - B"] (-1))).filter
        (fun l => jsTrim l != ""))
      ((((["- 20240101 - A", "note", "- 20240601 - B"] : List String).drop
          (sectionStart ["- 20240101 - A", "note", "- 20240601 - B"] (-1))).take
            (sectionLen ["- 20240101 - A", "note", "- 20240601 - B"] (-1))).filter
        (fun l => jsTrim l != "")) :=
  claim_C10 ["- 20240101 - A", "note", "- 20240601 - B"] (-1)
    ["- 20240601 - B", "- 20240101 - A", "note"] (Or.inl rfl) (by decide)

theorem digitVal_le {c : Char} (h : c.isDigit = true) : digitVal c ≤ 9 := by
  have := isDigit_toNat_bounds h
  simp only [digitVal]
  omega

theorem decDigitChar_digitVal {c : Char} (h : c.isDigit = true) :
    decDigitChar (digitVal c) = c := by
  have hb := isDigit_toNat_bounds h
  simp only [decDigitChar, digitVal]
  rw [show 48 + (c.toNat - 48) = c.toNat by omega]
  exact Char.ofNat_toNat c

theorem decReprFuel_congr :
    ∀ (f1 f2 n : Nat), n < f1 → n < f2 → decReprFuel f1 n = decReprFuel f2 n
  | 0, _, _, h1, _ => absurd h1 (by omega)
  | _ + 1, 0, _, _, h2 => absurd h2 (by omega)
  | f1 + 1, f2 + 1, n, h1, h2 => by
    simp only [decReprFuel]
    by_cases h : n < 10
    · rw [if_pos h, if_pos h]
    · rw [if_neg h, if_neg h]
      rw [decReprFuel_congr f1 f2 (n / 10) (by omega) (by omega)]

theorem decRepr_lt10 {n : Nat} (h : n < 10) : decRepr n = [decDigitChar n] := by
  simp only [decRepr, decReprFuel]
  rw [if_pos h]

theorem decRepr_ge10 {n : Nat} (h : 10 ≤ n) :
    decRepr n = decRepr (n / 10) ++ [decDigitChar (n % 10)] := by
  have step : decReprFuel (n + 1) n = decReprFuel n (n / 10) ++ [decDigitChar (n % 10)] := by
    conv_lhs => rw [decReprFuel]
    rw [if_neg (by omega)]
  rw [decRepr, step, decRepr,
    decReprFuel_congr n (n / 10 + 1) (n / 10) (by omega) (by omega)]

theorem pad2_two {n : Nat} (h : n ≤ 99) :
    pad2 n = [decDigitChar (n / 10), decDigitChar (n % 10)] := by
  by_cases h10 : n < 10
  · rw [pad2, decRepr_lt10 h10]
    rw [show n / 10 = 0 by omega, show n % 10 = n by omega]
    rw [show decDigitChar 0 = '0' by decide]
    rfl
  · rw [pad2, decRepr_ge10 (by omega), decRepr_lt10 (by omega : n / 10 < 10)]
    simp [padStart2]

theorem decRepr_four {n : Nat} (h1 : 1000 ≤ n) (h2 : n ≤ 9999) :
    decRepr n = [decDigitChar (n / 1000), decDigitChar (n / 100 % 10),
      decDigitChar (n / 10 % 10), decDigitChar (n % 10)] := by
  rw [decRepr_ge10 (by omega), decRepr_ge10 (by omega : 10 ≤ n / 10),
    decRepr_ge10 (by omega : 10 ≤ n / 10 / 10),
    decRepr_lt10 (by omega : n / 10 / 10 / 10 < 10)]
  rw [show n / 10 / 10 / 10 = n / 1000 by omega,
    show n / 10 / 10 % 10 = n / 100 % 10 by omega,
    show n / 10 % 10 = n / 10 % 10 from rfl]
  simp

theorem digitsVal_two (a b : Char) :
    digitsVal [a, b] = 10 * digitVal a + digitVal b := by
  simp only [digitsVal, List.foldl]
  omega

theorem digitsVal_four (a b c d : Char) :
    digitsVal [a, b, c, d] =
      1000 * digitVal a + 100 * digitVal b + 10 * digitVal c + digitVal d := by
  simp only [digitsVal, List.foldl]
  omega

theorem pad2_digits2 {a b : Char} (ha : a.isDigit = true) (hb : b.isDigit = true) :
    pad2 (digitsVal [a, b]) = [a, b] := by
  have hva := digitVal_le ha
  have hvb := digitVal_le hb
  rw [digitsVal_two, pad2_two (by omega)]
  rw [show (10 * digitVal a + digitVal b) / 10 = digitVal a by omega,
    show (10 * digitVal a + digitVal b) % 10 = digitVal b by omega,
    decDigitChar_digitVal ha, decDigitChar_digitVal hb]

theorem digitsVal_four_le {a b c d : Char} (ha : a.isDigit = true)
    (hb : b.isDigit = true) (hc : c.isDigit = true) (hd : d.isDigit = true) :
    digitsVal [a, b, c, d] ≤ 9999 := by
  have := digitVal_le ha
  have := digitVal_le hb
  have := digitVal_le hc
  have := digitVal_le hd
  rw [digitsVal_four]
  omega

theorem decRepr_digits4 {a b c d : Char} (ha : a.isDigit = true)
    (hb : b.isDigit = true) (hc : c.isDigit = true) (hd : d.isDigit = true)
    (hval : 1000 ≤ digitsVal [a, b, c, d]) :
    decRepr (digitsVal [a, b, c, d]) = [a, b, c, d] := by
  have hva := digitVal_le ha
  have hvb := digitVal_le hb
  have hvc := digitVal_le hc
  have hvd := digitVal_le hd
  rw [digitsVal_four] at hval ⊢
  rw [decRepr_four hval (by omega)]
  rw [show (1000 * digitVal a + 100 * digitVal b + 10 * digitVal c + digitVal d) /
      1000 = digitVal a by omega,
    show (1000 * digitVal a + 100 * digitVal b + 10 * digitVal c + digitVal d) /
      100 % 10 = digitVal b by omega,
    show (1000 * digitVal a + 100 * digitVal b + 10 * digitVal c + digitVal d) /
      10 % 10 = digitVal c by omega,
    show (1000 * digitVal a + 100 * digitVal b + 10 * digitVal c + digitVal d) %
      10 = digitVal d by omega,
    decDigitChar_digitVal ha, decDigitChar_digitVal hb,
    decDigitChar_digitVal hc, decDigitChar_digitVal hd]

theorem normalizeDays_valid (fuel : Nat) (y : Int) (m dd : Nat)
    (h1 : 1 ≤ dd) (h2 : dd ≤ daysInMonth y m) :
    normalizeDays (fuel + 1) y m dd = (y, m, dd) := by
  simp only [normalizeDays]
  rw [if_neg (by omega), if_neg (by omega)]

theorem mkDateFields_of_valid (y mon d h mi : Nat)
    (hy1 : 1000 ≤ y) (hy2 : y ≤ 9999)
    (hm1 : 1 ≤ mon) (hm2 : mon ≤ 12)
    (hd1 : 1 ≤ d) (hd2 : d ≤ daysInMonth (y : Int) mon)
    (hh : h ≤ 23) (hmi : mi ≤ 59) :
    mkDateFields y ((mon : Int) - 1) d h mi = ⟨(y : Int), mon, d, h, mi⟩ := by
  have h99 : ¬ (y ≤ 99) := by omega
  have hfd : ((mon : Int) - 1).fdiv 12 = 0 := by
    rw [Int.fdiv_eq_ediv _ (by omega)]
    omega
  have hm0 : (((mon : Int) - 1) % 12).toNat = mon - 1 := by
    have h12 : ((mon : Int) - 1) % 12 = (mon : Int) - 1 := by omega
    omega
  have hcar : (h * 60 + mi) / 1440 = 0 := by omega
  have hh2 : (h * 60 + mi) % 1440 / 60 = h := by omega
  have hmi2 : (h * 60 + mi) % 60 = mi := by omega
  simp only [mkDateFields, if_neg h99, hfd, hm0, hcar, hh2, hmi2, add_zero, Nat.add_zero]
  rw [show mon - 1 + 1 = mon by omega]
  rw [show (1000 : Nat) = 999 + 1 from rfl, normalizeDays_valid 999 _ _ _ hd1 hd2]

/-- C9 (amended: restricted to codes whose fields denote a calendar-valid
date-time with a four-digit year — month 1–12, day within the month, hour
≤ 23, minute ≤ 59, year 1000–9999): parsing a strict 12-digit line and
re-rendering the resulting `Date` through the extractor's
year/month/day/hour/minute formatter reproduces the 12-digit code of the
line. -/
theorem claim_C9 (line : String) (ds : List Char)
    (hd : timestampDigits line = some ds) (hlen : ds.length = 12)
    (hy1 : 1000 ≤ digitsVal (ds.take 4))
    (hm1 : 1 ≤ digitsVal ((ds.drop 4).take 2))
    (hm2 : digitsVal ((ds.drop 4).take 2) ≤ 12)
    (hd1 : 1 ≤ digitsVal ((ds.drop 6).take 2))
    (hd2 : digitsVal ((ds.drop 6).take 2) ≤
      daysInMonth ((digitsVal (ds.take 4) : Nat) : Int) (digitsVal ((ds.drop 4).take 2)))
    (hh : digitsVal ((ds.drop 8).take 2) ≤ 23)
    (hmi : digitsVal ((ds.drop 10).take 2) ≤ 59) :
    (parseTimestamp line).map formatYYYYMMDDHHmm = some (String.mk ds) := by
  have hall : ∀ c ∈ ds, c.isDigit = true := by
    obtain ⟨ws1, ws2, rest, c, -, -, -, -, -, -, hdig, -⟩ :=
      timestampDigits_eq_some_iff.mp hd
    exact hdig
  have hparse : parseTimestamp line = some (mkDateFields (digitsVal (ds.take 4))
      ((digitsVal ((ds.drop 4).take 2) : Int) - 1)
      (digitsVal ((ds.drop 6).take 2))
      (digitsVal ((ds.drop 8).take 2))
      (digitsVal ((ds.drop 10).take 2))) := by
    simp only [parseTimestamp, hd]
    rw [if_neg (by omega), if_pos hlen]
  rcases ds with _ | ⟨c1, _ | ⟨c2, _ | ⟨c3, _ | ⟨c4, _ | ⟨c5, _ | ⟨c6, _ | ⟨c7,
    _ | ⟨c8, _ | ⟨c9, _ | ⟨c10, _ | ⟨c11, _ | ⟨c12, _ | ⟨c13, tl⟩⟩⟩⟩⟩⟩⟩⟩⟩⟩⟩⟩⟩ <;>
    simp only [List.length_cons, List.length_nil] at hlen
  case cons.cons.cons.cons.cons.cons.cons.cons.cons.cons.cons.cons.nil =>
    have h1 := hall c1 (by simp)
    have h2 := hall c2 (by simp)
    have h3 := hall c3 (by simp)
    have h4 := hall c4 (by simp)
    have h5 := hall c5 (by simp)
    have h6 := hall c6 (by simp)
    have h7 := hall c7 (by simp)
    have h8 := hall c8 (by simp)
    have h9 := hall c9 (by simp)
    have h10 := hall c10 (by simp)
    have h11 := hall c11 (by simp)
    have h12 := hall c12 (by simp)
    rw [hparse]
    show some (formatYYYYMMDDHHmm (mkDateFields (digitsVal [c1, c2, c3, c4])
      ((digitsVal [c5, c6] : Int) - 1) (digitsVal [c7, c8])
      (digitsVal [c9, c10]) (digitsVal [c11, c12]))) =
      some (String.mk [c1, c2, c3, c4, c5, c6, c7, c8, c9, c10, c11, c12])
    rw [mkDateFields_of_valid _ _ _ _ _ (by exact hy1)
      (digitsVal_four_le h1 h2 h3 h4) (by exact hm1) (by exact hm2)
      (by exact hd1) (by exact hd2) (by exact hh) (by exact hmi)]
    simp only [formatYYYYMMDDHHmm, intRepr]
    rw [if_neg (by omega)]
    rw [Int.toNat_natCast]
    rw [decRepr_digits4 h1 h2 h3 h4 (by exact hy1)]
    rw [pad2_digits2 h5 h6, pad2_digits2 h7 h8, pad2_digits2 h9 h10,
      pad2_digits2 h11 h12]
    rfl
  all_goals omega

/-- Counterexample for C9 as stated: `"- 209913011200 - x"` matches the
strict 12-digit grammar, but its month field 13 makes `new Date` roll the
date over to January 2100, so re-formatting yields `210001011200`, not the
original code. -/
theorem claim_C9_counterexample :
    specStrictGrammar "- 209913011200 - x" = true ∧
    (parseTimestamp "- 209913011200 - x").map formatYYYYMMDDHHmm =
      some "210001011200" ∧
    (parseTimestamp "- 209913011200 - x").map formatYYYYMMDDHHmm ≠
      some "209913011200" := by decide

/-- Witness for C9: the valid code `202406181245` round-trips. -/
theorem claim_C9_witness :
    (parseTimestamp "- 202406181245 - x").map formatYYYYMMDDHHmm =
      some (String.mk "202406181245".data) :=
  claim_C9 "- 202406181245 - x" "202406181245".data (by decide) (by decide)
    (by decide) (by decide) (by decide) (by decide) (by decide) (by decide) (by decide)

/-- Witness for C3: the spec's example element satisfies every hypothesis
of the general statement. -/
theorem claim_C3_witness :
    processPost ⟨some "Hello", some "/r/test/comments/abc123/hello/",
        some "2024-06-18T16:45:00Z"⟩ =
      some ("- " ++ formatYYYYMMDDHHmm (msToJSDate (1718729100000 - 14400000)) ++
        " - [" ++ "Hello" ++ "](" ++
        ("https://www.reddit.com" ++ String.mk "/r/test/comments/abc123/".data) ++ ")") :=
  claim_C3.1 _ "Hello" "/r/test/comments/abc123/hello/" "2024-06-18T16:45:00Z" _
    1718729100000 rfl (by decide) rfl (by decide) rfl (by decide) (by decide) (by decide)

end HWCommand
